import Mathlib

/-!
Verification of the `rms-translator` library (`src/translator/__init__.py`).

The embedding represents Python strings as `List Char` (written via
`chars "..."` below), Python's polymorphic translated values as `Value`,
and the five translator classes as the inductive type `Translator`.  Fallible
Python code (raised exceptions) is modelled with `Except String`.
Recursive methods are modelled with an explicit fuel argument; fuel
exhaustion models Python's recursion limit and is unreachable for the
fuel supplied by the public wrappers.
-/

/-- Convert a Lean string literal to the `List Char` representation used
throughout the embedding. -/
def chars (s : String) : List Char := s.toList

/-- Fueled core of `replaceList`.  Models Python `str.replace(pat, rep)`:
non-overlapping replacement, scanning left to right.  The modelled fragment
assumes a non-empty pattern (every pattern used by the source is non-empty);
an empty pattern leaves the string unchanged. -/
def replaceListF : Nat → List Char → List Char → List Char → List Char
  | 0, _, _, s => s
  | _ + 1, _, _, [] => []
  | fuel + 1, pat, rep, c :: rest =>
    if pat ≠ [] ∧ pat.isPrefixOf (c :: rest) then
      rep ++ replaceListF fuel pat rep ((c :: rest).drop pat.length)
    else
      c :: replaceListF fuel pat rep rest

/-- Python `s.replace(pat, rep)` on the `List Char` representation. -/
def replaceList (pat rep s : List Char) : List Char :=
  replaceListF s.length pat rep s

/-- Python `s.split('#')` (used by `_fix_case`): split on every occurrence
of `'#'`; `"".split('#') == ['']`. -/
def splitOnHash : List Char → List (List Char)
  | [] => [[]]
  | '#' :: rest => [] :: splitOnHash rest
  | c :: rest =>
    match splitOnHash rest with
    | [] => [[c]]
    | p :: ps => (c :: p) :: ps

/-- Python `str.upper()` on the ASCII fragment exercised by the source. -/
def pyUpper (cs : List Char) : List Char := cs.map Char.toUpper

/-- Python `str.lower()` on the ASCII fragment exercised by the source. -/
def pyLower (cs : List Char) : List Char := cs.map Char.toLower

/-!  ### Regular expressions

`Pat` is the abstract syntax of the fragment of Python regular expressions
the source exercises: literal characters, `.`, concatenation, greedy `*`,
capturing groups and the end anchor `$`.  `Pat.cand` is the backtracking
matcher; it returns the possible (remainder, captures) pairs in Python's
backtracking priority order (greedy alternatives first), so the head of the
list is the match `re.match` produces.  The modelled fragment places no
capture group under a repetition (true of every pattern in this
development), so `star` contributes no captures.
-/

inductive Pat where
  | eps
  | char (c : Char)
  | anyc
  | seqp (a b : Pat)
  | star (r : Pat)
  | group (r : Pat)
  | eol
deriving DecidableEq, Repr

/-- Structural size of a pattern, used only to choose a sufficient fuel. -/
def Pat.size : Pat → Nat
  | .eps => 1
  | .char _ => 1
  | .anyc => 1
  | .seqp a b => a.size + b.size + 1
  | .star r => r.size + 1
  | .group r => r.size + 1
  | .eol => 1

/-- Backtracking matcher.  Given a pattern and the input (as chars), returns
all `(remainder, captures)` candidates in priority order.  `.` matches any
character except a newline, as in Python without `re.DOTALL`. -/
def Pat.cand : Nat → Pat → List Char → List (List Char × List (List Char))
  | 0, _, _ => []
  | _ + 1, .eps, cs => [(cs, [])]
  | _ + 1, .char c, cs =>
    match cs with
    | [] => []
    | d :: rest => if d = c then [(rest, [])] else []
  | _ + 1, .anyc, cs =>
    match cs with
    | [] => []
    | d :: rest => if d = '\n' then [] else [(rest, [])]
  | _ + 1, .eol, cs => if cs.isEmpty then [(cs, [])] else []
  | fuel + 1, .seqp a b, cs =>
    (Pat.cand fuel a cs).flatMap fun pr =>
      (Pat.cand fuel b pr.1).map fun qr => (qr.1, pr.2 ++ qr.2)
  | fuel + 1, .group r, cs =>
    (Pat.cand fuel r cs).map fun pr =>
      (pr.1, (cs.take (cs.length - pr.1.length)) :: pr.2)
  | fuel + 1, .star r, cs =>
    (((Pat.cand fuel r cs).filter fun pr => pr.1.length < cs.length).flatMap
      fun pr => (Pat.cand fuel (.star r) pr.1).map fun qr => (qr.1, ([] : List (List Char)))) ++
    [(cs, [])]

/-- Fuel sufficient for `Pat.cand`: the call depth is bounded by the
lexicographic measure (input length, pattern size). -/
def Pat.fuelFor (p : Pat) (cs : List Char) : Nat :=
  (cs.length + 2) * (p.size + 2)

/-- Python `compiled.match(string)`: attempt the match anchored at the start
of the input only, and return the capture groups of the first candidate in
backtracking priority order, or `none` when nothing matches.  The match need
not extend to the end of the input unless the pattern ends in `$`. -/
def Pat.reMatch (p : Pat) (cs : List Char) : Option (List (List Char)) :=
  match Pat.cand (Pat.fuelFor p cs) p cs with
  | [] => none
  | pr :: _ => some pr.2

-- a convenient abbreviation used by the concrete examples below: `^(.*)$`
def patGroupAll : Pat := Pat.seqp (Pat.group (Pat.star Pat.anyc)) Pat.eol

/-!  ### Replacement-template expansion (`matchobj.expand`)

Models the fragment of Python's template expansion the source exercises:
single-digit back-references `\1`..`\9`, the escaped backslash `\\`, and
plain characters.  An unknown ASCII-letter escape, a reference to a group the
pattern does not have, and a trailing backslash raise `re.error`; an unknown
non-letter escape is left alone, as in Python.  (`\g<..>` named references
and octal escapes are outside the modelled fragment.) -/
def templateExpand (groups : List (List Char)) : List Char → Except String (List Char)
  | [] => .ok []
  | '\\' :: rest =>
    match rest with
    | [] => .error "re.error: bad escape (end of pattern)"
    | c :: rest2 =>
      if c = '\\' then do
        let t ← templateExpand groups rest2
        .ok ('\\' :: t)
      else if '1' ≤ c ∧ c ≤ '9' then
        match groups.get? (c.toNat - '0'.toNat - 1) with
        | some g => do
          let t ← templateExpand groups rest2
          .ok (g ++ t)
        | none => .error "re.error: invalid group reference"
      else if c.isAlpha then .error "re.error: bad escape"
      else do
        let t ← templateExpand groups rest2
        .ok ('\\' :: c :: t)
  | c :: rest => do
    let t ← templateExpand groups rest
    .ok (c :: t)

/-!  ### `_fix_case` (source lines 534-560) -/

/-- The loop body of `_fix_case`: `parts` is `string.split('#')`, `change`
starts as `MIXED`, `literal_hash` starts false; a part equal to `LOWER`,
`UPPER` or `MIXED` switches the mode, every other part is case-transformed
per the current mode and separated from the previous kept part by a literal
`#`. -/
def fixCaseGo : List (List Char) → List Char → Bool → List Char → List Char
  | [], _, _, acc => acc
  | part :: parts, change, literalHash, acc =>
    if part = chars "LOWER" ∨ part = chars "UPPER" ∨ part = chars "MIXED" then
      fixCaseGo parts part false acc
    else
      let part1 := if change = chars "UPPER" then pyUpper part
                   else if change = chars "LOWER" then pyLower part
                   else part
      let acc1 := if literalHash then acc ++ '#' :: part1 else acc ++ part1
      fixCaseGo parts change true acc1

/-- `_fix_case(string)`: apply the `#UPPER#`/`#LOWER#`/`#MIXED#` case
directives.  The mode always starts as `MIXED`: the function is called once
per replacement item, so the mode does not persist across items. -/
def fixCase (cs : List Char) : List Char :=
  fixCaseGo (splitOnHash cs) (chars "MIXED") false []

/-!  ### `_evaluate_dict` (source lines 562-570)

The source scans the string with `re.findall(r'{.*?}\[.*?\]', string)` and
calls Python's built-in `eval` on every span found, then replaces every
occurrence of the span text with the value `eval` returned.  `findSpans`
is a direct executable translation of that lazy regular expression: a span
starts at a `{`, runs to the first `}` that is immediately followed by `[`,
and then to the first `]`; `.` does not cross a newline; spans are found
left to right without overlap. -/

/-- Lazy scan for `.*?}` immediately followed by `[`: returns the consumed
characters (including the `}`) and the remainder after the `[`. -/
def scanBody : List Char → Option (List Char × List Char)
  | '}' :: '[' :: rest => some (['}'], rest)
  | '\n' :: _ => none
  | c :: rest => (scanBody rest).map fun pr => (c :: pr.1, pr.2)
  | [] => none

/-- Lazy scan for `.*?]`: returns the consumed characters (including the
`]`) and the remainder. -/
def scanBracket : List Char → Option (List Char × List Char)
  | ']' :: rest => some ([']'], rest)
  | '\n' :: _ => none
  | c :: rest => (scanBracket rest).map fun pr => (c :: pr.1, pr.2)
  | [] => none

/-- Fueled scan of the whole string for non-overlapping spans of the form
modelled by `scanBody`/`scanBracket`. -/
def findSpansF : Nat → List Char → List (List Char)
  | 0, _ => []
  | _ + 1, [] => []
  | fuel + 1, '{' :: rest =>
    match scanBody rest with
    | some pr =>
      match scanBracket pr.2 with
      | some qr => ('{' :: pr.1 ++ '[' :: qr.1) :: findSpansF fuel qr.2
      | none => findSpansF fuel rest
    | none => findSpansF fuel rest
  | fuel + 1, _ :: rest => findSpansF fuel rest

/-- `re.findall(r'{.*?}\[.*?\]', string)`. -/
def findSpans (cs : List Char) : List (List Char) := findSpansF cs.length cs

/-- Parse a double-quoted Python string literal (no escapes): returns the
content and the remainder after the closing quote. -/
def parseStrLit : List Char → Option (List Char × List Char)
  | '\"' :: rest => parseStrLitBody rest
  | _ => none
where
  parseStrLitBody : List Char → Option (List Char × List Char)
  | [] => none
  | '\"' :: rest => some ([], rest)
  | c :: rest => (parseStrLitBody rest).map fun pr => (c :: pr.1, pr.2)

/-- Parse the comma-separated `"k":"v"` pairs of a dict display, consuming
the closing `}`. -/
def parsePairsF : Nat → List Char → Option (List (List Char × List Char) × List Char)
  | 0, _ => none
  | fuel + 1, cs => do
    let (k, r1) ← parseStrLit cs
    match r1 with
    | ':' :: r2 => do
      let (v, r3) ← parseStrLit r2
      match r3 with
      | ',' :: r4 => (parsePairsF fuel r4).map fun pr => ((k, v) :: pr.1, pr.2)
      | '}' :: r4 => some ([(k, v)], r4)
      | _ => none
    | _ => none

/-- Parse the index expression: a string literal, or a `+`-concatenation of
two string literals, which evaluates to the concatenation. -/
def parseKeyExpr (cs : List Char) : Option (List Char × List Char) := do
  let (k1, r1) ← parseStrLit cs
  match r1 with
  | '+' :: r2 => (parseStrLit r2).map fun pr => (k1 ++ pr.1, pr.2)
  | _ => some (k1, r1)

/-- Lookup in a Python dict display: a duplicated key keeps the last value. -/
def lookupPairs (pairs : List (List Char × List Char)) (key : List Char) :
    Option (List Char) :=
  pairs.reverse.lookup key

/-- Models the call `eval(d)` the source makes on each found span, for the
expression fragment this development exercises: a dict display of
double-quoted string literals indexed by a string expression that is either
a literal or a `+`-concatenation of two literals (e.g. `{"k":"v"}["k"]` or
`{"ab":"v"}["a"+"b"]`).  Python's `eval` is a general expression evaluator
and accepts strictly more; every behavior modelled here is a behavior of the
source.  A span that is not an expression of this fragment is mapped to an
error, as `eval` raises on text that is not a valid expression. -/
def evalFrag (cs : List Char) : Except String (List Char) :=
  match cs with
  | '{' :: rest =>
    match parsePairsF rest.length rest with
    | some (pairs, r1) =>
      match r1 with
      | '[' :: r2 =>
        match parseKeyExpr r2 with
        | some (key, r3) =>
          if r3 = [']'] then
            match lookupPairs pairs key with
            | some v => .ok v
            | none => .error "KeyError"
          else .error "eval error"
        | none => .error "eval error"
      | _ => .error "eval error"
    | none => .error "eval error"
  | _ => .error "eval error"

/-- The replacement loop of `_evaluate_dict`: for each found span `d`,
`string = string.replace(d, eval(d))`. -/
def evaluateDictGo : List (List Char) → List Char → Except String (List Char)
  | [], s => .ok s
  | d :: ds, s => do
    let v ← evalFrag d
    evaluateDictGo ds (replaceList d v s)

/-- `_evaluate_dict(string)` (source lines 562-570). -/
def evaluateDict (s : List Char) : Except String (List Char) :=
  evaluateDictGo (findSpans s) s

/-!  ### Translated values and replacement specifications -/

/-- An element of a Python tuple value: a string or a non-string item
(modelled by an integer, as in the source's tests). -/
inductive Item where
  | str (s : List Char)
  | int (n : Int)
deriving DecidableEq, Repr

/-- A single Python value stored in a dictionary or used as a replacement:
a string, a non-string scalar, or a fixed-size tuple. -/
inductive Value where
  | str (s : List Char)
  | int (n : Int)
  | tup (items : List Item)
deriving DecidableEq, Repr

/-- A stored dictionary value or replacement specification: either a bare
value or a Python list of values. -/
inductive Spec where
  | one (v : Value)
  | list (vs : List Value)
deriving DecidableEq, Repr

/-- `if not isinstance(results, list): results = [results]`. -/
def Spec.toList : Spec → List Value
  | .one v => [v]
  | .list vs => vs

/-- `TranslatorByDict.expand(results, key)` (source lines 325-354): replace
the literal two-character substring `\1` with the key in every string, and
in every string element of a tuple; everything else is unchanged. -/
def TranslatorByDict.expand (results : Spec) (key : List Char) : List Value :=
  results.toList.map fun result =>
    match result with
    | .str s => .str (replaceList (chars "\\1") key s)
    | .tup items => .tup (items.map fun item =>
        match item with
        | .str s => .str (replaceList (chars "\\1") key s)
        | other => other)
    | other => other

/-- `TranslatorByRegex.expand(regex, string, replacements)` (source lines
519-607).  If the pattern does not match, the empty list.  Otherwise each
replacement item is processed in order: a string gets back-reference
substitution, then `_fix_case`, then `_evaluate_dict`; a tuple gets the same
processing on each string element followed by a second
`matchobj.expand` on the processed result (source line 597 applies
`matchobj.expand` to the already-expanded string); anything else passes
through unchanged.  A raised exception aborts the whole call. -/
def TranslatorByRegex.expand (regex : Pat) (string : List Char) (replacements : Spec) :
    Except String (List Value) :=
  match Pat.reMatch regex string with
  | none => .ok []
  | some groups =>
    replacements.toList.mapM fun replacement =>
      match replacement with
      | .str t => do
        let result ← templateExpand groups t
        let result := fixCase result
        let result ← evaluateDict result
        .ok (Value.str result)
      | .tup items => do
        let processed ← items.mapM fun item =>
          match item with
          | .str t => do
            let result ← templateExpand groups t
            let result := fixCase result
            let result ← evaluateDict result
            let result2 ← templateExpand groups result
            .ok (Item.str result2)
          | other => .ok other
        .ok (Value.tup processed)
      | other => .ok other

/-!  ### The translator classes -/

/-- The five translator classes of the source.  `dict` is
`TranslatorByDict` (mapping plus optional path translator), `regex` is
`TranslatorByRegex` (compiled (pattern, replacement) pairs), `sequence` is
`TranslatorBySequence`, `null` is `NullTranslator` and `selfT` is
`SelfTranslator`. -/
inductive Translator where
  | sequence (children : List Translator)
  | dict (d : List (List Char × Spec)) (pathTranslator : Option Translator)
  | regex (tuples : List (Pat × Spec))
  | null
  | selfT

/-- The class attribute `TAG` used by the composition algebra's dispatch. -/
def Translator.tag : Translator → String
  | .sequence _ => "SEQUENCE"
  | .dict _ _ => "DICT"
  | .regex _ => "REGEX"
  | .null => "NULL"
  | .selfT => "SELF"

/-- The `strings` argument of `all`/`first`: a single Python string or a
list of strings. -/
inductive Strings where
  | one (s : List Char)
  | many (ls : List (List Char))
deriving DecidableEq, Repr

/-- `if isinstance(strings, str): strings = [strings]`. -/
def Strings.toList : Strings → List (List Char)
  | .one s => [s]
  | .many ls => ls

/-- The value returned by `all`: normally a Python list, but
`SelfTranslator.all` returns its argument unchanged, which may be a bare
string. -/
inductive AllRes where
  | rawStr (s : List Char)
  | vals (vs : List Value)
deriving DecidableEq, Repr

/-- Python truthiness of an `all` result (`if partial_results:`). -/
def AllRes.truthy : AllRes → Bool
  | .rawStr s => !s.isEmpty
  | .vals vs => !vs.isEmpty

/-- Python iteration over an `all` result (`for item in partial_results`):
iterating a bare string yields its characters as one-character strings. -/
def AllRes.iter : AllRes → List Value
  | .rawStr s => s.map fun c => Value.str [c]
  | .vals vs => vs

/-- The de-duplicating accumulation loop
`for item in items: if item not in results: results.append(item)`. -/
def dedupAppend (results : List Value) (items : List Value) : List Value :=
  items.foldl (fun acc item => if item ∈ acc then acc else acc ++ [item]) results

/-- Python `key in dict` plus `dict[key]` for the string-keyed mapping of a
`TranslatorByDict`. -/
def lookupDict (d : List (List Char × Spec)) (key : List Char) : Option Spec :=
  d.lookup key

/-- The key loop of `TranslatorByDict.all` (source lines 283-291). -/
def dictAllLoop (d : List (List Char × Spec)) : List Value → List Value → List Value
  | [], results => results
  | key :: keys, results =>
    match key with
    | .str s =>
      match lookupDict d s with
      | some spec => dictAllLoop d keys (dedupAppend results (TranslatorByDict.expand spec s))
      | none => dictAllLoop d keys results
    | _ => dictAllLoop d keys results

/-- The key loop of `TranslatorByDict.first` (source lines 316-323): the
first key present in the mapping returns `expanded[0]`, which raises
`IndexError` when the stored value expanded to an empty list. -/
def dictFirstLoop (d : List (List Char × Spec)) : List Value → Except String (Option Value)
  | [] => .ok none
  | key :: keys =>
    match key with
    | .str s =>
      match lookupDict d s with
      | some spec =>
        match TranslatorByDict.expand spec s with
        | [] => .error "IndexError"
        | v :: _ => .ok (some v)
      | none => dictFirstLoop d keys
    | _ => dictFirstLoop d keys

/-- Inner loop of `TranslatorByRegex.all` with `strings_first=True`:
`for (regex, replacement) in self.tuples` for one string. -/
def regexAllTupleLoop : List (Pat × Spec) → List Char → List Value →
    Except String (List Value)
  | [], _, results => .ok results
  | (p, repl) :: ts, s, results => do
    let expanded ← TranslatorByRegex.expand p s repl
    regexAllTupleLoop ts s (dedupAppend results expanded)

/-- Outer loop of `TranslatorByRegex.all` with `strings_first=True`. -/
def regexAllStringsFirst (tuples : List (Pat × Spec)) : List (List Char) → List Value →
    Except String (List Value)
  | [], results => .ok results
  | s :: ss, results => do
    let results ← regexAllTupleLoop tuples s results
    regexAllStringsFirst tuples ss results

/-- Inner loop of `TranslatorByRegex.all` with `strings_first=False`:
`for string in strings` for one (pattern, replacement) pair. -/
def regexAllStringLoop (p : Pat) (repl : Spec) : List (List Char) → List Value →
    Except String (List Value)
  | [], results => .ok results
  | s :: ss, results => do
    let expanded ← TranslatorByRegex.expand p s repl
    regexAllStringLoop p repl ss (dedupAppend results expanded)

/-- Outer loop of `TranslatorByRegex.all` with `strings_first=False`. -/
def regexAllRegexFirst : List (Pat × Spec) → List (List Char) → List Value →
    Except String (List Value)
  | [], _, results => .ok results
  | (p, repl) :: ts, ss, results => do
    let results ← regexAllStringLoop p repl ss results
    regexAllRegexFirst ts ss results

/-- Generic short-circuiting loop
`result = f(x); if result is not None: return result` used by the `first`
methods. -/
def firstSome {α : Type} : List α → (α → Except String (Option Value)) →
    Except String (Option Value)
  | [], _ => .ok none
  | x :: xs, f => do
    match ← f x with
    | some r => .ok (some r)
    | none => firstSome xs f

/-- The loops of `TranslatorByRegex.first`: the first non-empty expansion
returns its head. -/
def regexFirst (tuples : List (Pat × Spec)) (strs : List (List Char))
    (stringsFirst : Bool) : Except String (Option Value) :=
  if stringsFirst then
    firstSome strs fun s => firstSome tuples fun pr => do
      let expanded ← TranslatorByRegex.expand pr.1 s pr.2
      .ok expanded.head?
  else
    firstSome tuples fun pr => firstSome strs fun s => do
      let expanded ← TranslatorByRegex.expand pr.1 s pr.2
      .ok expanded.head?

/-- Fueled `all` (one fuel unit per `Translator` level; the wrappers below
supply fuel strictly greater than the nesting depth, so the fuel-exhaustion
error — Python's recursion limit — is unreachable).  Mirrors the `all`
methods of the five classes (source lines 85-124, 258-292, 446-487, 660-664,
706-710). -/
def Translator.allF : Nat → Translator → Strings → Bool → Except String AllRes
  | 0, _, _, _ => .error "RecursionError"
  | fuel + 1, t, strings, stringsFirst =>
    match t with
    | .null => .ok (.vals [])
    | .selfT =>
      .ok (match strings with
        | .one s => .rawStr s
        | .many ls => .vals (ls.map Value.str))
    | .dict d pt => do
      let strs := strings.toList
      let keys ← match pt with
        | none => pure (strs.map Value.str)
        | some ptr => do
          let r ← Translator.allF fuel ptr (.many strs) false
          pure r.iter
      .ok (.vals (dictAllLoop d keys []))
    | .regex tuples => do
      let strs := strings.toList
      let results ← if stringsFirst then regexAllStringsFirst tuples strs []
                    else regexAllRegexFirst tuples strs []
      .ok (.vals results)
    | .sequence children => do
      let strs := strings.toList
      let results ←
        if stringsFirst then
          strs.foldlM (fun results s =>
            children.foldlM (fun results c => do
              let partRes ← Translator.allF fuel c (.one s) false
              pure (if partRes.truthy then dedupAppend results partRes.iter else results))
              results) []
        else
          children.foldlM (fun results c => do
            let partRes ← Translator.allF fuel c (.many strs) false
            pure (if partRes.truthy then dedupAppend results partRes.iter else results)) []
      .ok (.vals results)

/-- Python's default recursion limit (`sys.getrecursionlimit()`), used as
the fuel of the recursive methods: a translator nested deeper than this
raises `RecursionError` in Python exactly as the fueled model does. -/
def pyRecursionLimit : Nat := 1000

/-- `translator.all(strings, strings_first)`. -/
def Translator.all (t : Translator) (strings : Strings) (stringsFirst : Bool) :
    Except String AllRes :=
  Translator.allF pyRecursionLimit t strings stringsFirst

/-- Fueled `first`, mirroring the `first` methods (source lines 126-158,
294-323, 489-517, 666-670, 712-716).  `SelfTranslator.first` performs a raw
`strings[0]`: on a bare string that is its first character, and on an empty
input it raises `IndexError`. -/
def Translator.firstF : Nat → Translator → Strings → Bool → Except String (Option Value)
  | 0, _, _, _ => .error "RecursionError"
  | fuel + 1, t, strings, stringsFirst =>
    match t with
    | .null => .ok none
    | .selfT =>
      match strings with
      | .one [] => .error "IndexError"
      | .one (c :: _) => .ok (some (.str [c]))
      | .many [] => .error "IndexError"
      | .many (s :: _) => .ok (some (.str s))
    | .dict d pt => do
      let strs := strings.toList
      let keys ← match pt with
        | none => pure (strs.map Value.str)
        | some ptr => do
          let r ← Translator.allF fuel ptr (.many strs) false
          pure r.iter
      dictFirstLoop d keys
    | .regex tuples => regexFirst tuples strings.toList stringsFirst
    | .sequence children =>
      let strs := strings.toList
      if stringsFirst then
        firstSome strs fun s => firstSome children fun c =>
          Translator.firstF fuel c (.one s) false
      else
        firstSome children fun c =>
          Translator.firstF fuel c (.many strs) false

/-- `translator.first(strings, strings_first)`. -/
def Translator.first (t : Translator) (strings : Strings) (stringsFirst : Bool) :
    Except String (Option Value) :=
  Translator.firstF pyRecursionLimit t strings stringsFirst

/-!  ### The composition algebra (`prepend`/`append`)

The source's `append` and `prepend` methods are mutually recursive across
the classes (a non-sequence receiving a sequence delegates to the
sequence's opposite method).  They are modelled as one fueled function with
a direction flag: `fwd` is `a.append(b)`, `bwd` is `a.prepend(b)`; each
branch is a direct translation of the corresponding method (source lines
186-226, 373-394, 619-646, 682-692, 728-756).  The recursion depth is at
most three, so the fuel of the wrappers is never exhausted. -/

inductive Dir where
  | fwd
  | bwd
deriving DecidableEq, Repr

/-- Fueled composition dispatch. -/
def Translator.combineF : Nat → Dir → Translator → Translator → Except String Translator
  | 0, _, _, _ => .error "RecursionError"
  | fuel + 1, .fwd, a, b =>
    match a with
    | .sequence s =>
      if b.tag = "NULL" then .ok b
      else
        match b with
        | .sequence s2 => .ok (.sequence (s ++ s2))
        | _ =>
          match s.getLast? with
          | none => .error "IndexError"
          | some lastc =>
            if b.tag = lastc.tag then do
              let nt ← Translator.combineF fuel .fwd lastc b
              if nt.tag = b.tag then .ok (.sequence (s.dropLast ++ [nt]))
              else .ok (.sequence [a, b])
            else .ok (.sequence [a, b])
    | .dict _ _ =>
      if b.tag = "NULL" then .ok b
      else if b.tag = "SEQUENCE" then Translator.combineF fuel .bwd b a
      else .ok (.sequence [a, b])
    | .regex ts =>
      if b.tag = "NULL" then .ok b
      else
        match b with
        | .regex ts2 => .ok (.regex (ts ++ ts2))
        | _ =>
          if b.tag = "SEQUENCE" then Translator.combineF fuel .bwd b a
          else .ok (.sequence [a, b])
    | .null => .ok b
    | .selfT =>
      if b.tag = "SELF" then .ok a
      else if b.tag = "NULL" then .ok a
      else if b.tag = "SEQUENCE" then Translator.combineF fuel .bwd b a
      else .ok (.sequence [a, b])
  | fuel + 1, .bwd, a, b =>
    match a with
    | .sequence s =>
      if b.tag = "NULL" then .ok b
      else
        match b with
        | .sequence s2 => .ok (.sequence (s2 ++ s))
        | _ =>
          match s with
          | [] => .error "IndexError"
          | firstc :: rest =>
            if b.tag = firstc.tag then do
              let nt ← Translator.combineF fuel .bwd firstc b
              if nt.tag = b.tag then .ok (.sequence (nt :: rest))
              else .ok (.sequence [b, a])
            else .ok (.sequence [b, a])
    | .dict _ _ =>
      if b.tag = "NULL" then .ok b
      else if b.tag = "SEQUENCE" then Translator.combineF fuel .fwd b a
      else .ok (.sequence [b, a])
    | .regex ts =>
      if b.tag = "NULL" then .ok b
      else
        match b with
        | .regex ts2 => .ok (.regex (ts2 ++ ts))
        | _ =>
          if b.tag = "SEQUENCE" then Translator.combineF fuel .fwd b a
          else .ok (.sequence [b, a])
    | .null => .ok b
    | .selfT =>
      if b.tag = "SELF" then .ok a
      else if b.tag = "NULL" then .ok a
      else if b.tag = "SEQUENCE" then Translator.combineF fuel .fwd b a
      else .ok (.sequence [b, a])

/-- `a.append(b)` (also the sugar `a + b` and `a += b`). -/
def Translator.append (a b : Translator) : Except String Translator :=
  Translator.combineF pyRecursionLimit .fwd a b

/-- `a.prepend(b)`. -/
def Translator.prepend (a b : Translator) : Except String Translator :=
  Translator.combineF pyRecursionLimit .bwd a b

/-!  ### Construction -/

/-- An argument of the `TranslatorBySequence` constructor as the dynamic
language sees it: either a `Translator` instance or some other object. -/
inductive PyArg where
  | tr (t : Translator)
  | nonTr

/-- `TranslatorBySequence.__init__(args)` (source lines 74-83): assert
`isinstance(arg, Translator)` for each element of `args` — a loop that is
vacuous when `args` is empty — then store the list. -/
def TranslatorBySequence.init (args : List PyArg) : Except String Translator :=
  if args.all (fun a => match a with | .tr _ => true | .nonTr => false) then
    .ok (.sequence (args.filterMap fun a =>
      match a with | .tr t => some t | .nonTr => none))
  else .error "AssertionError"

/-- One rule given to the `TranslatorByRegex` constructor:
`(pattern-string, value)`, `(pattern-string, flags, value)` or
`(compiled-pattern, value)`.  A pattern string is carried as its abstract
syntax (the modelled fragment has no `^`/`$` inside the written pattern,
and the flags of the three-element form are the default `0`). -/
inductive RegexRule where
  | fromStr (pattern : Pat) (repl : Spec)
  | fromStr3 (pattern : Pat) (flags : Nat) (repl : Spec)
  | compiled (pattern : Pat) (repl : Spec)

/-- `re.compile('^' + source + '$')`: under `regex.match` the leading `^`
adds nothing (matching is already anchored at the start), and the trailing
`$` is the end anchor appended to the pattern. -/
def anchorPat (p : Pat) : Pat := Pat.seqp p Pat.eol

/-- `TranslatorByRegex.__init__(tuples)` (source lines 427-444): a pattern
given as a string is compiled wrapped in `'^' ... '$'`; an already-compiled
pattern is stored exactly as supplied. -/
def TranslatorByRegex.init (tuples : List RegexRule) : List (Pat × Spec) :=
  tuples.map fun items =>
    match items with
    | .fromStr p v => (anchorPat p, v)
    | .fromStr3 p _ v => (anchorPat p, v)
    | .compiled p v => (p, v)

/-!  ### Definitions taken from the specification's words

The two definitions below follow the specification text rather than the
source; they exist only to be compared with the source-derived definitions
above. -/

/-- Modelled from the spec: the restricted inline literal-lookup the spec
describes — an occurrence is replaced only when it has the form
`{literal-map}[literal-key]`, a literal mapping indexed by a literal key;
nothing else is evaluated.  Returns the looked-up value when the span has
that restricted form, `none` otherwise. -/
def specNarrowEval (cs : List Char) : Option (List Char) :=
  match cs with
  | '{' :: rest =>
    match parsePairsF rest.length rest with
    | some (pairs, r1) =>
      match r1 with
      | '[' :: r2 =>
        match parseStrLit r2 with
        | some (key, r3) => if r3 = [']'] then lookupPairs pairs key else none
        | none => none
      | _ => none
    | none => none
  | _ => none

/-- Modelled from the spec: the expansion engine's inline lookup as the
claim states it — replace only occurrences of the restricted form, evaluate
nothing else, and leave every other occurrence untouched. -/
def specEvaluateDict (s : List Char) : List Char :=
  (findSpans s).foldl (fun acc d =>
    match specNarrowEval d with
    | some v => replaceList d v acc
    | none => acc) s

/-- Modelled from the spec: case-directive processing that also reports the
final mode, so that the mode can be threaded from one processed item to the
next ("mode starts as `MIXED` and is not reset between processed items").
The per-part logic is the source's. -/
def specFixCaseGo : List (List Char) → List Char → Bool → List Char →
    (List Char × List Char)
  | [], change, _, acc => (acc, change)
  | part :: parts, change, literalHash, acc =>
    if part = chars "LOWER" ∨ part = chars "UPPER" ∨ part = chars "MIXED" then
      specFixCaseGo parts part false acc
    else
      let part1 := if change = chars "UPPER" then pyUpper part
                   else if change = chars "LOWER" then pyLower part
                   else part
      let acc1 := if literalHash then acc ++ '#' :: part1 else acc ++ part1
      specFixCaseGo parts change true acc1

/-- Modelled from the spec: process one string starting from the given
mode, returning the processed string and the final mode. -/
def specFixCaseFrom (mode : List Char) (cs : List Char) : List Char × List Char :=
  specFixCaseGo (splitOnHash cs) mode false []

/-- Modelled from the spec: process the items of one replacement list with
the case-transform mode threaded from item to item. -/
def specFixCaseItems : List (List Char) → List Char → List (List Char)
  | [], _ => []
  | s :: ss, mode =>
    let pr := specFixCaseFrom mode s
    pr.1 :: specFixCaseItems ss pr.2

/-!  ### Helper lemmas -/

theorem except_bind_ok {α β : Type} {x : Except String α} {f : α → Except String β}
    {b : β} (h : x >>= f = .ok b) : ∃ a, x = .ok a ∧ f a = .ok b := by
  cases x with
  | error e => simp [Bind.bind, Except.bind] at h
  | ok a => exact ⟨a, rfl, by simpa [Bind.bind, Except.bind] using h⟩

theorem dedupAppend_nodup (items : List Value) :
    ∀ acc : List Value, acc.Nodup → (dedupAppend acc items).Nodup := by
  induction items with
  | nil => intro acc h; simpa [dedupAppend] using h
  | cons i is ih =>
    intro acc h
    simp only [dedupAppend, List.foldl_cons] at *
    by_cases hmem : i ∈ acc
    · simpa [hmem] using ih acc h
    · have hnd : (acc ++ [i]).Nodup := by simp [List.nodup_append, h, hmem]
      simpa [hmem, dedupAppend] using ih (acc ++ [i]) hnd

theorem foldlM_except_ok {α β : Type} (f : β → α → Except String β) (P : β → Prop)
    (hf : ∀ b a r, P b → f b a = .ok r → P r) :
    ∀ (l : List α) (acc out : β), P acc → l.foldlM f acc = .ok out → P out := by
  intro l
  induction l with
  | nil =>
    intro acc out h he
    simp only [List.foldlM, pure, Except.pure] at he
    cases he; exact h
  | cons a l ih =>
    intro acc out h he
    simp only [List.foldlM] at he
    obtain ⟨b, hb, hrest⟩ := except_bind_ok he
    exact ih b out (hf acc a b h hb) hrest

theorem dictAllLoop_nodup (d : List (List Char × Spec)) (keys : List Value) :
    ∀ acc : List Value, acc.Nodup → (dictAllLoop d keys acc).Nodup := by
  induction keys with
  | nil => intro acc h; simpa [dictAllLoop] using h
  | cons k ks ih =>
    intro acc h
    cases k with
    | str s =>
      cases hl : lookupDict d s with
      | some spec =>
        simpa [dictAllLoop, hl] using ih _ (dedupAppend_nodup _ acc h)
      | none => simpa [dictAllLoop, hl] using ih acc h
    | int n => simpa [dictAllLoop] using ih acc h
    | tup items => simpa [dictAllLoop] using ih acc h

theorem regexAllTupleLoop_nodup (s : List Char) (ts : List (Pat × Spec)) :
    ∀ acc out : List Value, acc.Nodup → regexAllTupleLoop ts s acc = .ok out →
      out.Nodup := by
  induction ts with
  | nil =>
    intro acc out h he
    simp only [regexAllTupleLoop] at he
    cases he; exact h
  | cons t ts ih =>
    intro acc out h he
    simp only [regexAllTupleLoop] at he
    obtain ⟨e, _, hrest⟩ := except_bind_ok he
    exact ih _ out (dedupAppend_nodup _ acc h) hrest

theorem regexAllStringsFirst_nodup (tuples : List (Pat × Spec)) (ss : List (List Char)) :
    ∀ acc out : List Value, acc.Nodup → regexAllStringsFirst tuples ss acc = .ok out →
      out.Nodup := by
  induction ss with
  | nil =>
    intro acc out h he
    simp only [regexAllStringsFirst] at he
    cases he; exact h
  | cons s ss ih =>
    intro acc out h he
    simp only [regexAllStringsFirst] at he
    obtain ⟨mid, hmid, hrest⟩ := except_bind_ok he
    exact ih mid out (regexAllTupleLoop_nodup s tuples acc mid h hmid) hrest

theorem regexAllStringLoop_nodup (p : Pat) (repl : Spec) (ss : List (List Char)) :
    ∀ acc out : List Value, acc.Nodup → regexAllStringLoop p repl ss acc = .ok out →
      out.Nodup := by
  induction ss with
  | nil =>
    intro acc out h he
    simp only [regexAllStringLoop] at he
    cases he; exact h
  | cons s ss ih =>
    intro acc out h he
    simp only [regexAllStringLoop] at he
    obtain ⟨e, _, hrest⟩ := except_bind_ok he
    exact ih _ out (dedupAppend_nodup _ acc h) hrest

theorem regexAllRegexFirst_nodup (ss : List (List Char)) (ts : List (Pat × Spec)) :
    ∀ acc out : List Value, acc.Nodup → regexAllRegexFirst ts ss acc = .ok out →
      out.Nodup := by
  induction ts with
  | nil =>
    intro acc out h he
    simp only [regexAllRegexFirst] at he
    cases he; exact h
  | cons t ts ih =>
    intro acc out h he
    simp only [regexAllRegexFirst] at he
    obtain ⟨mid, hmid, hrest⟩ := except_bind_ok he
    exact ih mid out (regexAllStringLoop_nodup t.1 t.2 ss acc mid h hmid) hrest

theorem specFixCaseGo_fst (parts : List (List Char)) :
    ∀ (change : List Char) (literalHash : Bool) (acc : List Char),
      (specFixCaseGo parts change literalHash acc).1 =
        fixCaseGo parts change literalHash acc := by
  induction parts with
  | nil => intro change lh acc; rfl
  | cons part parts ih =>
    intro change lh acc
    by_cases hm : part = chars "LOWER" ∨ part = chars "UPPER" ∨ part = chars "MIXED"
    · simp only [specFixCaseGo, fixCaseGo, if_pos hm]; exact ih _ _ _
    · simp only [specFixCaseGo, fixCaseGo, if_neg hm]; exact ih _ _ _

theorem fixCase_eq_specFrom (s : List Char) :
    fixCase s = (specFixCaseFrom (chars "MIXED") s).1 :=
  (specFixCaseGo_fst (splitOnHash s) (chars "MIXED") false []).symm

theorem dictAllLoop_no_match (d : List (List Char × Spec)) (ss : List (List Char))
    (hnone : ∀ s ∈ ss, lookupDict d s = none) :
    ∀ acc : List Value, dictAllLoop d (ss.map Value.str) acc = acc := by
  induction ss with
  | nil => intro acc; rfl
  | cons s ss ih =>
    intro acc
    have hs := hnone s (by simp)
    simp only [List.map_cons, dictAllLoop, hs]
    exact ih (fun x hx => hnone x (by simp [hx])) acc

theorem dictFirstLoop_no_match (d : List (List Char × Spec)) (ss : List (List Char))
    (hnone : ∀ s ∈ ss, lookupDict d s = none) :
    dictFirstLoop d (ss.map Value.str) = .ok none := by
  induction ss with
  | nil => rfl
  | cons s ss ih =>
    have hs := hnone s (by simp)
    simp only [List.map_cons, dictFirstLoop, hs]
    exact ih (fun x hx => hnone x (by simp [hx]))

theorem allF_nodup :
    ∀ (fuel : Nat) (t : Translator) (strs : Strings) (sf : Bool) (vs : List Value),
      t ≠ .selfT → Translator.allF fuel t strs sf = .ok (.vals vs) → vs.Nodup := by
  intro fuel t strs sf vs ht he
  cases fuel with
  | zero => simp [Translator.allF] at he
  | succ fuel =>
    cases t with
    | null =>
      simp only [Translator.allF] at he
      have hv : vs = [] := by simpa using he.symm
      simp [hv]
    | selfT => exact absurd rfl ht
    | dict d pt =>
      cases pt with
      | none =>
        simp only [Translator.allF] at he
        obtain ⟨keys, _, hrest⟩ := except_bind_ok he
        have hv : vs = dictAllLoop d keys [] := by simpa using hrest.symm
        rw [hv]
        exact dictAllLoop_nodup d keys [] List.nodup_nil
      | some ptr =>
        simp only [Translator.allF] at he
        obtain ⟨r, _, hrest⟩ := except_bind_ok he
        obtain ⟨keys, _, hrest2⟩ := except_bind_ok hrest
        have hv : vs = dictAllLoop d keys [] := by simpa using hrest2.symm
        rw [hv]
        exact dictAllLoop_nodup d keys [] List.nodup_nil
    | regex tuples =>
      cases sf with
      | false =>
        simp only [Translator.allF, Bool.false_eq_true, if_false] at he
        obtain ⟨res, hres, hrest⟩ := except_bind_ok he
        have hv : vs = res := by simpa using hrest.symm
        rw [hv]
        exact regexAllRegexFirst_nodup _ _ _ _ List.nodup_nil hres
      | true =>
        simp only [Translator.allF, if_true] at he
        obtain ⟨res, hres, hrest⟩ := except_bind_ok he
        have hv : vs = res := by simpa using hrest.symm
        rw [hv]
        exact regexAllStringsFirst_nodup _ _ _ _ List.nodup_nil hres
    | sequence children =>
      have hstep : ∀ (stri : Strings) (acc : List Value) (c : Translator)
          (out : List Value), acc.Nodup →
          (do
            let partRes ← Translator.allF fuel c stri false
            pure (if partRes.truthy then dedupAppend acc partRes.iter else acc)) =
            Except.ok out → out.Nodup := by
        intro stri acc c out hacc hs
        obtain ⟨pr, _, hpure⟩ := except_bind_ok hs
        have hout : out = if pr.truthy then dedupAppend acc pr.iter else acc := by
          simpa [pure, Except.pure] using hpure.symm
        rw [hout]
        by_cases htr : pr.truthy
        · simpa [htr] using dedupAppend_nodup pr.iter acc hacc
        · simpa [htr] using hacc
      cases sf with
      | false =>
        simp only [Translator.allF, Bool.false_eq_true, if_false] at he
        obtain ⟨res, hres, hrest⟩ := except_bind_ok he
        have hv : vs = res := by simpa using hrest.symm
        rw [hv]
        exact foldlM_except_ok _ List.Nodup
          (fun acc c out hacc hs => hstep _ acc c out hacc hs)
          children [] res List.nodup_nil hres
      | true =>
        simp only [Translator.allF, if_true] at he
        obtain ⟨res, hres, hrest⟩ := except_bind_ok he
        have hv : vs = res := by simpa using hrest.symm
        rw [hv]
        refine foldlM_except_ok _ List.Nodup ?_ _ [] res List.nodup_nil hres
        intro acc s out hacc hs
        exact foldlM_except_ok _ List.Nodup
          (fun acc2 c out2 hacc2 hs2 => hstep _ acc2 c out2 hacc2 hs2)
          children acc out hacc hs

theorem combineF_null_left (fuel : Nat) (dir : Dir) (t : Translator) :
    Translator.combineF (fuel + 1) dir .null t = .ok t := by
  cases dir <;> rfl

theorem combineF_null_right (fuel : Nat) (dir : Dir) (t : Translator)
    (h : t.tag ≠ "SELF") :
    Translator.combineF (fuel + 1) dir t .null = .ok .null := by
  cases t <;> cases dir <;>
    simp_all [Translator.combineF, Translator.tag]

theorem combineF_self_null (fuel : Nat) (dir : Dir) :
    Translator.combineF (fuel + 1) dir .selfT .null = .ok .selfT := by
  cases dir <;> rfl

/-!  ### The claims -/

/-- C1, counterexample: the claim states `Empty.append(T) == Empty` and
`Empty.prepend(T) == Empty`, but `NullTranslator.append`/`prepend` return
the argument itself: composing Empty with the Identity translator yields
Identity, not Empty; moreover `Identity.append(Empty)` is Identity, not
Empty. -/
theorem claim_C1_counterexample :
    Translator.append .null .selfT = .ok .selfT ∧
    Translator.prepend .null .selfT = .ok .selfT ∧
    Translator.selfT ≠ Translator.null ∧
    Translator.append .selfT .null = .ok .selfT ∧
    Translator.prepend .selfT .null = .ok .selfT :=
  ⟨rfl, rfl, fun h => Translator.noConfusion h, rfl, rfl⟩

/-- C1, amended: composing on an Empty receiver returns the other
translator (`Empty.append(T) == T == Empty.prepend(T)`); composing any
non-Identity translator with Empty on the argument side collapses to Empty
(`T.append(Empty) == Empty == T.prepend(Empty)`); the Identity translator
absorbs Empty instead (`Identity.append(Empty) == Identity ==
Identity.prepend(Empty)`). -/
theorem claim_C1_amended (t : Translator) :
    Translator.append .null t = .ok t ∧
    Translator.prepend .null t = .ok t ∧
    (t.tag ≠ "SELF" →
      Translator.append t .null = .ok .null ∧
      Translator.prepend t .null = .ok .null) ∧
    Translator.append .selfT .null = .ok .selfT ∧
    Translator.prepend .selfT .null = .ok .selfT :=
  ⟨combineF_null_left 999 .fwd t, combineF_null_left 999 .bwd t,
   fun h => ⟨combineF_null_right 999 .fwd t h, combineF_null_right 999 .bwd t h⟩,
   combineF_self_null 999 .fwd, combineF_self_null 999 .bwd⟩

/-- C1, witness for the amended claim at a concrete non-Identity
translator. -/
theorem claim_C1_witness :
    Translator.append (.dict [] none) .null = .ok .null ∧
    Translator.prepend (.dict [] none) .null = .ok .null :=
  (claim_C1_amended (.dict [] none)).2.2.1 (by decide)

/-- C2, counterexample: the claim includes EXACT with EXACT among the
same-kind merges, but appending two exact-match (dictionary) translators
produces a two-element Sequence translator, not a single translator of the
same kind: its kind tag is `SEQUENCE`, not `DICT`. -/
theorem claim_C2_counterexample :
    Translator.append (.dict [(chars "a", .one (.str (chars "1")))] none)
        (.dict [(chars "b", .one (.str (chars "2")))] none)
      = .ok (.sequence [.dict [(chars "a", .one (.str (chars "1")))] none,
                        .dict [(chars "b", .one (.str (chars "2")))] none]) ∧
    (Translator.sequence [.dict [(chars "a", .one (.str (chars "1")))] none,
                          .dict [(chars "b", .one (.str (chars "2")))] none]).tag
      ≠ "DICT" :=
  ⟨rfl, by decide⟩

/-- C2, amended: appending two Pattern translators merges their rule lists
into one Pattern translator (`A`'s entries first, reversed for prepend),
and likewise two Sequence translators merge into one Sequence; but two
exact-match (dictionary) translators do not merge — they are wrapped into a
two-element Sequence in the requested order. -/
theorem claim_C2_amended :
    (∀ ta tb : List (Pat × Spec),
      Translator.append (.regex ta) (.regex tb) = .ok (.regex (ta ++ tb)) ∧
      Translator.prepend (.regex ta) (.regex tb) = .ok (.regex (tb ++ ta))) ∧
    (∀ sa sb : List Translator,
      Translator.append (.sequence sa) (.sequence sb) = .ok (.sequence (sa ++ sb)) ∧
      Translator.prepend (.sequence sa) (.sequence sb) = .ok (.sequence (sb ++ sa))) ∧
    (∀ (d1 d2 : List (List Char × Spec)) (p1 p2 : Option Translator),
      Translator.append (.dict d1 p1) (.dict d2 p2)
        = .ok (.sequence [.dict d1 p1, .dict d2 p2]) ∧
      Translator.prepend (.dict d1 p1) (.dict d2 p2)
        = .ok (.sequence [.dict d2 p2, .dict d1 p1])) :=
  ⟨fun _ _ => ⟨rfl, rfl⟩, fun _ _ => ⟨rfl, rfl⟩,
   fun _ _ _ _ => ⟨rfl, rfl⟩⟩

/-- C5, counterexample: constructing a Sequence translator with an empty
child list does not fail — the per-element `isinstance` assertion loop is
vacuous on an empty list, so construction succeeds and yields a Sequence
with zero children. -/
theorem claim_C5_counterexample :
    TranslatorBySequence.init [] = .ok (.sequence []) := rfl

/-- C5, amended: Sequence construction only asserts that each supplied
element is a Translator (rejecting a non-translator element), so an empty
child list is accepted; the at-least-one-child invariant is not enforced at
construction, and the failure surfaces only at merge time, when
`append`/`prepend` on a zero-child Sequence with a non-Empty, non-Sequence
argument raises `IndexError` (queries on the empty Sequence simply find
nothing). -/
theorem claim_C5_amended :
    (∀ ts : List Translator,
      TranslatorBySequence.init (ts.map PyArg.tr) = .ok (.sequence ts)) ∧
    TranslatorBySequence.init [PyArg.nonTr] = .error "AssertionError" ∧
    Translator.append (.sequence []) (.dict [] none) = .error "IndexError" ∧
    Translator.prepend (.sequence []) .selfT = .error "IndexError" ∧
    Translator.all (.sequence []) (.one (chars "x")) false = .ok (.vals []) ∧
    Translator.first (.sequence []) (.one (chars "x")) false = .ok none := by
  refine ⟨fun ts => ?_, rfl, rfl, rfl, rfl, rfl⟩
  have hall : ((ts.map PyArg.tr).all fun a =>
      match a with | PyArg.tr _ => true | PyArg.nonTr => false) = true := by
    induction ts with
    | nil => rfl
    | cons t ts ih => simpa using ih
  have hfm : ((ts.map PyArg.tr).filterMap fun a =>
      match a with | PyArg.tr t => some t | PyArg.nonTr => none) = ts := by
    induction ts with
    | nil => rfl
    | cons t ts ih => simpa using ih
  simp [TranslatorBySequence.init, hall, hfm]

/-- C3, counterexample: the claim covers every translator variant including
Identity, but the Identity translator's `all` returns its input list
unchanged — on input `["a", "a"]` the result contains two structurally
equal entries. -/
theorem claim_C3_counterexample :
    Translator.all .selfT (.many [chars "a", chars "a"]) false
      = .ok (.vals [.str (chars "a"), .str (chars "a")]) ∧
    ¬ ([Value.str (chars "a"), Value.str (chars "a")].Nodup) :=
  ⟨rfl, by decide⟩

/-- C3, amended: for every translator other than the bare Identity
translator, and every input and either value of `strings_first`, the list
returned by `all` contains no two structurally equal entries (first
occurrence wins); the Identity translator instead returns its input
unchanged, duplicates included. -/
theorem claim_C3_amended :
    (∀ (t : Translator) (strs : Strings) (sf : Bool) (vs : List Value),
      t ≠ .selfT → Translator.all t strs sf = .ok (.vals vs) → vs.Nodup) ∧
    (∀ (ls : List (List Char)) (sf : Bool),
      Translator.all .selfT (.many ls) sf = .ok (.vals (ls.map Value.str))) :=
  ⟨fun t strs sf vs ht he => allF_nodup pyRecursionLimit t strs sf vs ht he,
   fun ls sf => rfl⟩

/-- C3, witness for the amended claim at a concrete translator and input:
an exact-match translator queried twice with the same key. -/
theorem claim_C3_witness :
    ([Value.str (chars "1")] : List Value).Nodup :=
  claim_C3_amended.1 (.dict [(chars "a", .one (.str (chars "1")))] none)
    (.many [chars "a", chars "a"]) false [.str (chars "1")]
    (fun h => Translator.noConfusion h) rfl

/-- C4, counterexample: the claim says the query operations never raise for
any variant and any input, including an empty string list and an
exact-match mapping whose stored value is an empty list — but the Identity
translator's `first` on an empty list raises `IndexError` (`strings[0]`),
and an exact-match `first` whose matched stored value is the empty list
raises `IndexError` (`expanded[0]`). -/
theorem claim_C4_counterexample :
    Translator.first .selfT (.many []) false = .error "IndexError" ∧
    Translator.first (.dict [(chars "a", .list [])] none) (.one (chars "a")) false
      = .error "IndexError" :=
  ⟨rfl, rfl⟩

/-- C4, amended: "no match" as such is signalled by an empty list (`all`)
or `None` (`first`): for the Empty translator and for exact-match
translators without a path translator, `all` always returns a list without
raising, and `first` returns `None` when no key matches.  The claim's
universal no-error guarantee fails, and not only in the two cases the
claim names explicitly (Identity's `first` on an empty input and an
exact-match `first` whose matched stored value is an empty list, both in
the counterexample): Identity's raw `strings[0]` also raises through a
Sequence that dispatches to it on an empty input list, and
Pattern-translator queries raise when replacement processing fails, e.g.
on a back-reference to a group the pattern does not have. -/
theorem claim_C4_amended :
    (∀ (d : List (List Char × Spec)) (strs : Strings) (sf : Bool),
      (∃ vs, Translator.all (.dict d none) strs sf = .ok (.vals vs)) ∧
      ((∀ s ∈ strs.toList, lookupDict d s = none) →
        Translator.all (.dict d none) strs sf = .ok (.vals []) ∧
        Translator.first (.dict d none) strs sf = .ok none)) ∧
    (∀ (strs : Strings) (sf : Bool),
      Translator.all .null strs sf = .ok (.vals []) ∧
      Translator.first .null strs sf = .ok none) ∧
    Translator.first (.sequence [.selfT]) (.many []) false = .error "IndexError" ∧
    Translator.first (.regex [(patGroupAll, .one (.str (chars "\\9")))])
        (.one (chars "x")) false = .error "re.error: invalid group reference" := by
  refine ⟨fun d strs sf => ⟨⟨dictAllLoop d (strs.toList.map Value.str) [], rfl⟩, ?_⟩,
    fun strs sf => ⟨rfl, rfl⟩, rfl, rfl⟩
  intro hnone
  constructor
  · show Except.ok (AllRes.vals (dictAllLoop d (strs.toList.map Value.str) []))
      = Except.ok (AllRes.vals [])
    rw [dictAllLoop_no_match d strs.toList hnone []]
  · show dictFirstLoop d (strs.toList.map Value.str) = .ok none
    exact dictFirstLoop_no_match d strs.toList hnone

/-- C4, witness for the amended claim at a concrete mapping and a
non-matching input. -/
theorem claim_C4_witness :
    Translator.all (.dict [(chars "a", .one (.str (chars "1")))] none)
        (.many [chars "z"]) false = .ok (.vals []) ∧
    Translator.first (.dict [(chars "a", .one (.str (chars "1")))] none)
        (.many [chars "z"]) false = .ok none :=
  ((claim_C4_amended.1 [(chars "a", .one (.str (chars "1")))]
    (.many [chars "z"]) false).2 (by decide))

/-- C6, counterexample: the claim says the inline-lookup feature replaces
only occurrences of the restricted form `{literal-map}[literal-key]` and
evaluates nothing else.  On a replacement string whose only `{...}[...]`
occurrence indexes the mapping with the non-literal key expression
`"a"+"b"`, the restricted evaluator of the claim (`specEvaluateDict`)
leaves the text unchanged, but the source's `_evaluate_dict` hands the span
to the general expression evaluator, which evaluates the concatenation and
substitutes the looked-up value — and the full expansion engine does the
same. -/
theorem claim_C6_counterexample :
    evaluateDict (chars "x\x7b\"ab\":\"v\"\x7d[\"a\"+\"b\"]y") = .ok (chars "xvy") ∧
    specEvaluateDict (chars "x\x7b\"ab\":\"v\"\x7d[\"a\"+\"b\"]y")
      = chars "x\x7b\"ab\":\"v\"\x7d[\"a\"+\"b\"]y" ∧
    chars "xvy" ≠ chars "x\x7b\"ab\":\"v\"\x7d[\"a\"+\"b\"]y" ∧
    TranslatorByRegex.expand patGroupAll (chars "q")
        (.one (.str (chars "\x7b\"ab\":\"v\"\x7d[\"a\"+\"b\"]")))
      = .ok [.str (chars "v")] :=
  ⟨rfl, rfl, by decide, rfl⟩

/-- C6, amended: the inline-lookup step finds each minimal-span occurrence
of the textual form `{...}[...]` and replaces it with the result of general
expression evaluation of that span — the evaluation is not restricted to a
literal mapping indexed by a literal key (a computed key expression is
evaluated too); replacement text containing no such span is passed through
unchanged. -/
theorem claim_C6_amended :
    (∀ s : List Char, findSpans s = [] → evaluateDict s = .ok s) ∧
    evaluateDict (chars "x\x7b\"ab\":\"v\"\x7d[\"a\"+\"b\"]y") = .ok (chars "xvy") ∧
    evaluateDict (chars "pre_\x7b\"a\":\"b\"\x7d[\"a\"]_post")
      = .ok (chars "pre_b_post") := by
  refine ⟨fun s hs => ?_, rfl, rfl⟩
  show evaluateDictGo (findSpans s) s = .ok s
  rw [hs]
  rfl

/-- C6, witness for the amended claim at a concrete span-free string. -/
theorem claim_C6_witness :
    evaluateDict (chars "plain text") = .ok (chars "plain text") :=
  claim_C6_amended.1 (chars "plain text") rfl

/-- C7, counterexample: the claim states that the case-transform mode "is
not reset between the processed items of one replacement-specification
list".  With the replacement list `["#UPPER#\1", "\1"]` on matched text
`"test"`, a persisting mode (the spec-modelled `specFixCaseItems`) would
produce `["TEST", "TEST"]`, but the source calls `_fix_case` afresh for
each item — mode re-initialized to `MIXED` — so the engine produces
`["TEST", "test"]`. -/
theorem claim_C7_counterexample :
    TranslatorByRegex.expand patGroupAll (chars "test")
        (.list [.str (chars "#UPPER#\\1"), .str (chars "\\1")])
      = .ok [.str (chars "TEST"), .str (chars "test")] ∧
    specFixCaseItems [chars "#UPPER#test", chars "test"] (chars "MIXED")
      = [chars "TEST", chars "TEST"] ∧
    Value.str (chars "test") ≠ Value.str (chars "TEST") :=
  ⟨rfl, rfl, by decide⟩

/-- C7, amended: within one replacement string each `#UPPER#`/`#LOWER#`/
`#MIXED#` marker switches the case-transform mode for all following text up
to the next marker; a literal `#` not forming a recognized marker is
preserved; the mode starts as `MIXED` afresh for every processed item of a
replacement-specification list (it is reset between items, because
`_fix_case` is called once per item).  The claim's concrete examples hold:
`"#UPPER#\1"` on `"test"` yields `"TEST"`, and `"#UPPER#\1#LOWER#_suffix"`
yields `"TEST_suffix"`. -/
theorem claim_C7_amended :
    TranslatorByRegex.expand patGroupAll (chars "test")
        (.one (.str (chars "#UPPER#\\1"))) = .ok [.str (chars "TEST")] ∧
    TranslatorByRegex.expand patGroupAll (chars "test")
        (.one (.str (chars "#UPPER#\\1#LOWER#_suffix")))
      = .ok [.str (chars "TEST_suffix")] ∧
    TranslatorByRegex.expand patGroupAll (chars "test")
        (.one (.str (chars "prefix#\\1#suffix")))
      = .ok [.str (chars "prefix#test#suffix")] ∧
    TranslatorByRegex.expand patGroupAll (chars "test")
        (.list [.str (chars "#UPPER#\\1"), .str (chars "\\1")])
      = .ok [.str (chars "TEST"), .str (chars "test")] ∧
    (∀ s : List Char, fixCase s = (specFixCaseFrom (chars "MIXED") s).1) :=
  ⟨rfl, rfl, rfl, rfl, fixCase_eq_specFrom⟩

/-- C8: the claim is the intended behavior (each string element of a tuple
replacement gets exactly the same single-pass processing as a bare string
replacement), but the source's tuple branch applies `matchobj.expand` a
second time to the already-processed string (source line 597,
`items.append(matchobj.expand(result))`).  At the pattern `^(..)/(.)$`
matching the input `\2/z`, the bare replacement `\1` yields the matched
text `\2`, while the same string inside a tuple is expanded again and
yields group 2's text `z`. -/
theorem claim_C8_bug :
    TranslatorByRegex.expand
        (anchorPat (Pat.seqp (Pat.group (Pat.seqp Pat.anyc Pat.anyc))
          (Pat.seqp (Pat.char '/') (Pat.group Pat.anyc))))
        (chars "\\2/z") (.one (.str (chars "\\1")))
      = .ok [.str (chars "\\2")] ∧
    TranslatorByRegex.expand
        (anchorPat (Pat.seqp (Pat.group (Pat.seqp Pat.anyc Pat.anyc))
          (Pat.seqp (Pat.char '/') (Pat.group Pat.anyc))))
        (chars "\\2/z") (.one (.tup [.str (chars "\\1")]))
      = .ok [.tup [.str (chars "z")]] ∧
    Item.str (chars "z") ≠ Item.str (chars "\\2") :=
  ⟨rfl, rfl, by decide⟩

/-- C9: traversal-order semantics of a Sequence of two exact-match
translators.  For `D1={"a":"1","b":"2"}`, `D2={"a":"3","b":"4"}`,
`all(["a","b"])` is string-major `["1","3","2","4"]` with
`strings_first=true` and translator-major `["1","2","3","4"]` with
`strings_first=false`; for the one-key mappings `D1={"a":"1"}`,
`D2={"a":"3"}`, `all(["a"])` is `["1","3"]` under both flag values. -/
theorem claim_C9 :
    Translator.all
        (.sequence
          [.dict [(chars "a", .one (.str (chars "1"))),
                  (chars "b", .one (.str (chars "2")))] none,
           .dict [(chars "a", .one (.str (chars "3"))),
                  (chars "b", .one (.str (chars "4")))] none])
        (.many [chars "a", chars "b"]) true
      = .ok (.vals [.str (chars "1"), .str (chars "3"),
                    .str (chars "2"), .str (chars "4")]) ∧
    Translator.all
        (.sequence
          [.dict [(chars "a", .one (.str (chars "1"))),
                  (chars "b", .one (.str (chars "2")))] none,
           .dict [(chars "a", .one (.str (chars "3"))),
                  (chars "b", .one (.str (chars "4")))] none])
        (.many [chars "a", chars "b"]) false
      = .ok (.vals [.str (chars "1"), .str (chars "2"),
                    .str (chars "3"), .str (chars "4")]) ∧
    Translator.all
        (.sequence [.dict [(chars "a", .one (.str (chars "1")))] none,
                    .dict [(chars "a", .one (.str (chars "3")))] none])
        (.many [chars "a"]) true
      = .ok (.vals [.str (chars "1"), .str (chars "3")]) ∧
    Translator.all
        (.sequence [.dict [(chars "a", .one (.str (chars "1")))] none,
                    .dict [(chars "a", .one (.str (chars "3")))] none])
        (.many [chars "a"]) false
      = .ok (.vals [.str (chars "1"), .str (chars "3")]) :=
  ⟨rfl, rfl, rfl, rfl⟩

/-- C10: a rule supplied as `(compiled-pattern, value)` is stored exactly
as given — no `^`/`$` anchors are added — while a rule supplied as a
pattern string (two- or three-element form) is anchored; and since
matching only anchors at the start of the input, a compiled unanchored
pattern `a` matches the longer input `"ab"` (full-string matching is not
guaranteed) whereas the same pattern given as a string does not, and
neither matches `"ba"`. -/
theorem claim_C10 :
    (∀ (p : Pat) (v : Spec),
      TranslatorByRegex.init [RegexRule.compiled p v] = [(p, v)]) ∧
    (∀ (p : Pat) (f : Nat) (v : Spec),
      TranslatorByRegex.init [RegexRule.fromStr p v] = [(Pat.seqp p Pat.eol, v)] ∧
      TranslatorByRegex.init [RegexRule.fromStr3 p f v] = [(Pat.seqp p Pat.eol, v)]) ∧
    Translator.first
        (.regex (TranslatorByRegex.init
          [RegexRule.compiled (Pat.char 'a') (.one (.str (chars "X")))]))
        (.one (chars "ab")) false = .ok (some (.str (chars "X"))) ∧
    Translator.first
        (.regex (TranslatorByRegex.init
          [RegexRule.fromStr (Pat.char 'a') (.one (.str (chars "X")))]))
        (.one (chars "ab")) false = .ok none ∧
    Translator.first
        (.regex (TranslatorByRegex.init
          [RegexRule.compiled (Pat.char 'a') (.one (.str (chars "X")))]))
        (.one (chars "ba")) false = .ok none :=
  ⟨fun _ _ => rfl, fun _ _ _ => ⟨rfl, rfl⟩, rfl, rfl, rfl⟩
